import Mathlib

/-
Verification development for the boundary-hierarchy resolver of
src/4-AerialPhotoOrganizer.py (repository DrawYoloBoxes).

Shallow embedding conventions:
  * XML documents (KML files) are modelled by the inductive `Xml`: an element
    with a local tag name, optional text, and a list of child elements.
    Namespace resolution is elided: tags are the namespace-stripped local
    names, which is what the source's nested-mode `local_name` computes and
    what the standard mode's namespaced lookups resolve to for documents in
    the KML namespace declared in `KML_NS`.
  * A file whose text cannot be parsed as well-formed XML (the
    `ET.parse` failure caught by `except Exception`) is modelled as the
    input `none : Option Xml`.
  * The shapely geometry library is an external collaborator; it is
    modelled by the record `Geom` of geometric primitives.  The three
    point predicates return `Option Bool`, where `none` models the call
    raising an exception (the source guards those calls with try/except);
    the polygon/area primitives used by the linker are total, as the
    source calls them unguarded on polygons built by the parser.
  * Python floats are modelled as rationals (`Rat`); `float()` / `int()`
    are modelled for the plain decimal forms occurring in KML data.
  * `AdministrativeRegion` objects are mutable and aliased in the source;
    here a `Region` is a value and a parent reference holds the region as
    of link time.  The `children` field is write-only in the source (it is
    appended to but never read anywhere in the program), so the snapshots
    stored in `children` and the snapshot parents differ from the Python
    object graph only in fields the program never reads.
  * The per-run report prints are modelled, where a claim needs them, by a
    numeric channel counting parse-failure reports.
-/

/-! ## Geometry primitives -/

/-- A shapely polygon as built by the source: the ordered ring of
(longitude, latitude) pairs passed to the `Polygon` constructor. -/
structure Polygon where
  ring : List (Rat × Rat)

/-- A shapely point, built as `Point(lon, lat)`. -/
abbrev Point := Rat × Rat

/-- The geometric primitives supplied by the shapely collaborator.
The three point predicates return `none` when the underlying library call
would raise an exception. -/
structure Geom where
  containsPt : Polygon → Point → Option Bool
  touchesPt : Polygon → Point → Option Bool
  intersectsPt : Polygon → Point → Option Bool
  intersectsPoly : Polygon → Polygon → Bool
  areaOf : Polygon → Rat
  interArea : Polygon → Polygon → Rat

/-! ## XML document model -/

/-- An XML element: local tag name, optional text, child elements. -/
inductive Xml where
  | elem (tag : String) (text : Option String) (children : List Xml)

def Xml.tag : Xml → String
  | .elem t _ _ => t

def Xml.text : Xml → Option String
  | .elem _ s _ => s

def Xml.children : Xml → List Xml
  | .elem _ _ c => c

mutual

/-- `element.iter()`: the element followed by all its descendants in
document (preorder) order. -/
def allElems : Xml → List Xml
  | .elem t s cs => .elem t s cs :: allElemsL cs

def allElemsL : List Xml → List Xml
  | [] => []
  | x :: xs => allElems x ++ allElemsL xs

end

/-- All subelements at all depths below `x`, in document order
(the ElementTree `.//` axis). -/
def descendantsOf (x : Xml) : List Xml :=
  allElemsL x.children

/-- The direct children of `x` carrying the given tag, in order. -/
def childrenTagged (x : Xml) (t : String) : List Xml :=
  x.children.filter (fun c => c.tag = t)

/-- `x.find('./t')`: the first direct child tagged `t`. -/
def findChild (x : Xml) (t : String) : Option Xml :=
  (childrenTagged x t).head?

/-- `x.find('.//t')`: the first descendant tagged `t`, in document order. -/
def firstDesc (x : Xml) (t : String) : Option Xml :=
  ((descendantsOf x).filter (fun e => e.tag = t)).head?

/-- `placemark.find('./kml:Style/kml:LineStyle/kml:width')`. -/
def findStyleWidth (pm : Xml) : Option Xml :=
  (((childrenTagged pm "Style").flatMap (fun s => childrenTagged s "LineStyle")).flatMap
    (fun l => childrenTagged l "width")).head?

/-! ## Numeric and string helpers

These are written by structural recursion over the character list of a
string (rather than on top of the standard library's substring-based
string functions) so that all parsing functions evaluate on concrete
inputs. -/

/-- `str.strip()` on a character list: drop whitespace from both ends. -/
def stripChars (l : List Char) : List Char :=
  ((l.dropWhile Char.isWhitespace).reverse.dropWhile Char.isWhitespace).reverse

/-- Python `str.strip()` (on the whitespace characters recognised by
`Char.isWhitespace`). -/
def strip (s : String) : String :=
  ⟨stripChars s.data⟩

/-- The numeric value of a decimal digit character. -/
def digitVal? (c : Char) : Option Nat :=
  if c.isDigit then some (c.toNat - 48) else none

def natOfDigitsAux : List Char → Nat → Option Nat
  | [], acc => some acc
  | c :: cs, acc =>
    match digitVal? c with
    | none => none
    | some d => natOfDigitsAux cs (acc * 10 + d)

/-- A non-empty all-digit character list as a natural number. -/
def natOfDigits? : List Char → Option Nat
  | [] => none
  | l => natOfDigitsAux l 0

/-- Python `int()` on the decimal forms relevant here: optional
surrounding whitespace, optional sign, digits. -/
def parseIntChars : List Char → Option Int
  | '-' :: rest => (natOfDigits? rest).map (fun n => -(n : Int))
  | '+' :: rest => (natOfDigits? rest).map (fun n => (n : Int))
  | l => (natOfDigits? l).map (fun n => (n : Int))

/-- Python `int()` applied to a string (see `parseIntChars`). -/
def parseIntStr (s : String) : Option Int :=
  parseIntChars (stripChars s.data)

/-- Split a character list at every occurrence of a separator character
(the behaviour of `str.split(sep)` for a one-character separator). -/
def splitOnChar (sep : Char) : List Char → List (List Char)
  | [] => [[]]
  | c :: cs =>
    if c = sep then [] :: splitOnChar sep cs
    else
      match splitOnChar sep cs with
      | [] => [[c]]
      | h :: t => (c :: h) :: t

/-- Python `float()` on the plain decimal forms found in KML coordinate
data: optional whitespace, optional sign, digits, optional fractional
digits.  Exotic float syntax (exponents, "inf", a leading or trailing
bare dot) is out of scope of this model. -/
def parseRatChars (l : List Char) : Option Rat :=
  let t := stripChars l
  let sign : Rat :=
    match t with
    | '-' :: _ => -1
    | _ => 1
  let body :=
    match t with
    | '-' :: rest => rest
    | '+' :: rest => rest
    | l2 => l2
  match splitOnChar '.' body with
  | [a] => (natOfDigits? a).map (fun n => sign * (n : Rat))
  | [a, b] =>
    match natOfDigits? a, natOfDigits? b with
    | some na, some nb => some (sign * ((na : Rat) + (nb : Rat) / ((10 : Rat) ^ b.length)))
    | _, _ => none
  | _ => none

/-- Python `float()` applied to a string (see `parseRatChars`). -/
def parseRatStr (s : String) : Option Rat :=
  parseRatChars s.data

/-- Python `str.split()` with no argument: split on whitespace runs,
producing no empty tokens. -/
def splitWsAux : List Char → List Char → List (List Char)
  | [], acc => if acc.isEmpty then [] else [acc.reverse]
  | c :: cs, acc =>
    if c.isWhitespace then
      if acc.isEmpty then splitWsAux cs [] else acc.reverse :: splitWsAux cs []
    else splitWsAux cs (c :: acc)

def splitWs (s : String) : List (List Char) :=
  splitWsAux s.data []

/-- `parse_coordinates` (and the identical inline loop of the standard
parser): split the text on whitespace, split each token on commas, keep
the tokens with at least two parts whose first two parts parse as floats;
malformed tokens are skipped individually.  (The source's
`if not point.strip()` guard is vacuous on `split()` output and the
leading `strip()` does not change the whitespace split.) -/
def parse_coordinates (coords_text : String) : List (Rat × Rat) :=
  let tokens := splitWs coords_text
  tokens.filterMap (fun point =>
    match splitOnChar ',' point with
    | p0 :: p1 :: _ =>
      match parseRatChars p0, parseRatChars p1 with
      | some lon, some lat => some (lon, lat)
      | _, _ => none
    | _ => none)

/-! ## Regions and forests -/

/-- `AdministrativeRegion`: name, level (3 = district, 2 = town,
1 = village, as in the source), optional boundary polygon, optional parent
reference, children.  Parent and children hold region values as of link
time (see the header comment on aliasing). -/
inductive Region where
  | mk (name : String) (level : Int) (polygon : Option Polygon)
       (parent : Option Region) (children : List Region)

def Region.name : Region → String
  | .mk n _ _ _ _ => n

def Region.level : Region → Int
  | .mk _ l _ _ _ => l

def Region.polygon : Region → Option Polygon
  | .mk _ _ p _ _ => p

def Region.parent : Region → Option Region
  | .mk _ _ _ p _ => p

def Region.children : Region → List Region
  | .mk _ _ _ _ c => c

def Region.withParent : Region → Option Region → Region
  | .mk n l po _ c, p => .mk n l po p c

def Region.withChildren : Region → List Region → Region
  | .mk n l po p _, c => .mk n l po p c

/-- `regions_by_level`: the dictionary `{3: [...], 2: [...], 1: [...]}`,
with the key-3 bucket as `districts`, key 2 as `towns`, key 1 as
`villages`. -/
structure Forest where
  districts : List Region
  towns : List Region
  villages : List Region

def emptyForest : Forest :=
  { districts := [], towns := [], villages := [] }

/-! ## Point resolver (`find_region_for_point`) -/

/-- The guarded test `poly.contains(point) or poly.touches(point) or
poly.intersects(point)`: Python `or` short-circuits, and any of the three
library calls raising (modelled by `none`) makes the whole guarded test
raise. -/
def regionTest (g : Geom) (poly : Polygon) (pt : Point) : Option Bool :=
  match g.containsPt poly pt with
  | none => none
  | some true => some true
  | some false =>
    match g.touchesPt poly pt with
    | none => none
    | some true => some true
    | some false => g.intersectsPt poly pt

/-- Whether one candidate region is selected by a tier scan: it must have
a boundary polygon and its guarded three-predicate test must succeed with
`True` (a raised exception, `none`, does not select). -/
def regionMatches (g : Geom) (pt : Point) (r : Region) : Bool :=
  match r.polygon with
  | none => false
  | some poly =>
    match regionTest g poly pt with
    | some true => true
    | _ => false

/-- One tier loop of `find_region_for_point`: skip regions without a
polygon (`if not poly: continue`), skip regions whose guarded test raises
(`except Exception: continue`) or returns `False`, and stop at the first
region whose test returns `True`. -/
def scanRegions (g : Geom) (pt : Point) : List Region → Option Region
  | [] => none
  | r :: rest =>
    match r.polygon with
    | none => scanRegions g pt rest
    | some poly =>
      match regionTest g poly pt with
      | some true => some r
      | _ => scanRegions g pt rest

/-- `find_region_for_point(point, regions_by_level)`, returning the triple
`(district, town, village)`.  The village tier is scanned first; the town
tier only when no village matched; the district tier only when neither a
village nor a town matched.  On a village match the town and district are
recovered from the parent chain. -/
def find_region_for_point (g : Geom) (pt : Point) (f : Forest) :
    Option Region × Option Region × Option Region :=
  match scanRegions g pt f.villages with
  | some v =>
    let town := v.parent
    let district := match town with
      | some t => t.parent
      | none => none
    (district, town, some v)
  | none =>
    match scanRegions g pt f.towns with
    | some t => (t.parent, some t, none)
    | none =>
      match scanRegions g pt f.districts with
      | some d => (some d, none, none)
      | none => (none, none, none)

/-! ## Standard-mode parser (`parse_kml_standard`) -/

/-- The element's text when present and non-empty (the source guard
`elem is None or not elem.text`, with the element lookup done by the
caller). -/
def nonEmptyText (e : Xml) : Option String :=
  match e.text with
  | none => none
  | some s => if s = "" then none else some s

/-- The name text of a Placemark accepted by the standard parser:
`placemark.find('./kml:name')` present with truthy text. -/
def nameTextOf (pm : Xml) : Option String :=
  (findChild pm "name").bind nonEmptyText

/-- The line-style width text accepted by the standard parser. -/
def widthTextOf (pm : Xml) : Option String :=
  (findStyleWidth pm).bind nonEmptyText

/-- `int(style_elem.text)`, `None` when the lookup or the parse fails. -/
def widthVal (pm : Xml) : Option Int :=
  (widthTextOf pm).bind parseIntStr

/-- The coordinates text used by the standard parser: the first
`coordinates` descendant (even if its text turns out empty), then the
truthy-text guard. -/
def coordsTextOf (pm : Xml) : Option String :=
  (firstDesc pm "coordinates").bind nonEmptyText

/-- The boundary polygon the standard parser builds for a Placemark:
parse the coordinate text and keep the polygon only when at least three
valid pairs remain; otherwise the region stays boundary-less. -/
def stdPolyOf (pm : Xml) : Option Polygon :=
  match coordsTextOf pm with
  | none => none
  | some ctext =>
    let coords := parse_coordinates ctext
    if 3 ≤ coords.length then some ⟨coords⟩ else none

/-- The loop body of `parse_kml_standard` for one Placemark: `none` when
the element is skipped (no name, no width, unparsable width, or width
outside {1,2,3}), otherwise the single region it contributes. -/
def stdRegionOf (pm : Xml) : Option Region :=
  match nameTextOf pm with
  | none => none
  | some ntext =>
    match widthVal pm with
    | none => none
    | some lvl =>
      if lvl = 1 ∨ lvl = 2 ∨ lvl = 3 then
        some (Region.mk (strip ntext) lvl (stdPolyOf pm) none [])
      else none

/-- `regions_by_level[level].append(region)`.  The level is 1, 2 or 3 for
every region produced by `stdRegionOf`; the final branch is unreachable. -/
def addRegion (f : Forest) (r : Region) : Forest :=
  if r.level = 3 then { f with districts := f.districts ++ [r] }
  else if r.level = 2 then { f with towns := f.towns ++ [r] }
  else if r.level = 1 then { f with villages := f.villages ++ [r] }
  else f

/-- One step of the Placemark loop: bucket the contributed region, if
any. -/
def stdStep (f : Forest) (pm : Xml) : Forest :=
  match stdRegionOf pm with
  | none => f
  | some r => addRegion f r

/-- The per-level buckets after the Placemark loop, before linking. -/
def bucketAllOf (root : Xml) : Forest :=
  (((descendantsOf root).filter (fun e => e.tag = "Placemark"))).foldl stdStep emptyForest

/-- The linker's qualification test for one (finer, coarser) pair: both
polygons present, the polygons intersect, and
`finer.polygon.area * 0.5 <= finer.polygon.intersection(coarser.polygon).area`. -/
def qualifies (g : Geom) (finer coarser : Region) : Bool :=
  match finer.polygon, coarser.polygon with
  | some pf, some pc =>
    g.intersectsPoly pf pc && decide (g.areaOf pf * (1 / 2 : Rat) ≤ g.interArea pf pc)
  | _, _ => false

/-- The inner linking loop for one finer region: every qualifying coarser
candidate, in iteration order, overwrites the parent reference (the source
loop has no break). -/
def linkFiner (g : Geom) (coarser : List Region) (t : Region) : Region :=
  coarser.foldl (fun acc c => if qualifies g acc c then acc.withParent (some c) else acc) t

/-- The children appended to one coarser region by the linking loops:
every qualifying finer region, in iteration order.  (The source's
`not in children` membership test is vacuous: each pair is visited once
and the region objects are all distinct.) -/
def attachChildren (g : Geom) (finer : List Region) (c : Region) : Region :=
  c.withChildren (c.children ++ finer.filter (fun t => qualifies g t c))

/-- The two linking passes of `parse_kml_standard`: towns against
districts, then villages against the already-linked towns.  Line 303 of
the source also sets a dynamic `village.district` attribute; it is
write-only in the program (never read anywhere) and is not modelled. -/
def linkForest (g : Geom) (f : Forest) : Forest :=
  let towns2 := f.towns.map (linkFiner g f.districts)
  let districts2 := f.districts.map (attachChildren g f.towns)
  let villages2 := f.villages.map (linkFiner g towns2)
  let towns3 := towns2.map (attachChildren g f.villages)
  { districts := districts2, towns := towns3, villages := villages2 }

/-- `parse_kml_standard`: on unparsable input the `except` branch reports
the failure once and returns the empty buckets; otherwise bucket every
Placemark by its style width and then link.  The second component counts
parse-failure reports. -/
def parse_kml_standard (g : Geom) (doc : Option Xml) : Forest × Nat :=
  match doc with
  | none => (emptyForest, 1)
  | some root => (linkForest g (bucketAllOf root), 0)

/-! ## Nested-mode parser (`parse_kml_nested`) -/

/-- The guard `elem.text and elem.text.strip()` followed by use of the
stripped text: the stripped text when it is non-empty. -/
def strippedText (e : Xml) : Option String :=
  match e.text with
  | none => none
  | some s => if strip s = "" then none else some (strip s)

/-- Whether the character `c` occurs in `s` (Python `sub in s` for the
one-character needles used by the district-name heuristic). -/
def containsChar (s : String) (c : Char) : Bool :=
  s.data.contains c

/-- Whether a name text contains one of the three administrative suffix
characters the district-name heuristic skips. -/
def hasLowerLevelWord (t : String) : Bool :=
  containsChar t '乡' || containsChar t '镇' || containsChar t '村' 

/-- The non-empty stripped texts of the `name`/`n` elements among the
given children, in order. -/
def nameTexts (children : List Xml) : List String :=
  children.filterMap (fun e =>
    if e.tag = "name" ∨ e.tag = "n" then strippedText e else none)

/-- The first `name`/`n` child with non-empty stripped text (the town and
village name rule). -/
def firstNameText (children : List Xml) : Option String :=
  (nameTexts children).head?

/-- The district name rule of the nested parser: the first name candidate
among the Document's direct children that contains none of the three
suffix characters; failing that, the first candidate; failing that, the
placeholder. -/
def districtNameOf (document : Xml) : String :=
  let cands := nameTexts document.children
  match cands.find? (fun t => !(hasLowerLevelWord t)) with
  | some t => t
  | none =>
    match cands.head? with
    | some t => t
    | none => "未知县"

/-- The town name of one Folder (`None` when the Folder carries no
non-empty name and is skipped in its entirety). -/
def townNameOf (folder : Xml) : Option String :=
  firstNameText folder.children

/-- The coordinate text used for one village: the first element of
`pm.iter()` tagged `coordinates` whose text has non-empty strip, taken
unstripped (`parse_coordinates` strips internally). -/
def villageCoordsText (pm : Xml) : Option String :=
  ((allElems pm).find? (fun e => e.tag = "coordinates" && (strippedText e).isSome)).bind Xml.text

/-- The polygon of one village in nested mode: built from the first
coordinate-bearing descendant when at least three valid pairs parse. -/
def villagePolyOf (pm : Xml) : Option Polygon :=
  match villageCoordsText pm with
  | none => none
  | some ctext =>
    let coords := parse_coordinates ctext
    if 3 ≤ coords.length then some ⟨coords⟩ else none

/-- The Placemark loop body inside one Folder: a village region with the
enclosing town as parent, or `none` when the Placemark has no non-empty
name and is skipped. -/
def villageOf (town0 : Region) (pm : Xml) : Option Region :=
  match firstNameText pm.children with
  | none => none
  | some vname => some (Region.mk vname 1 (villagePolyOf pm) (some town0) [])

/-- The Folder loop body: `none` when the Folder has no non-empty name
(the Folder is skipped in its entirety, villages included); otherwise the
town region (with its villages as children) and its village regions. -/
def processFolder (district0 : Region) (folder : Xml) : Option (Region × List Region) :=
  match townNameOf folder with
  | none => none
  | some tn =>
    let town0 : Region := .mk tn 2 none (some district0) []
    let villages := (folder.children.filter (fun e => e.tag = "Placemark")).filterMap
      (villageOf town0)
    some (town0.withChildren villages, villages)

/-- The body of `parse_kml_nested` once the Document element is found:
one district from the name heuristic, one town per named Folder, one
village per named Placemark of those Folders, parents assigned directly
from structure. -/
def nestedProcess (document : Xml) : Forest :=
  let district0 : Region := .mk (districtNameOf document) 3 none none []
  let folders := document.children.filter (fun e => e.tag = "Folder")
  let results := folders.filterMap (processFolder district0)
  let towns := results.map Prod.fst
  let villages := results.flatMap Prod.snd
  { districts := [district0.withChildren towns], towns := towns, villages := villages }

/-- `parse_kml_nested`: unparsable input, or input without a Document
element, reports once and yields the empty buckets; otherwise the nested
traversal.  The Document element is the first one in `root.iter()`
order. -/
def parse_kml_nested (doc : Option Xml) : Forest × Nat :=
  match doc with
  | none => (emptyForest, 1)
  | some root =>
    match (allElems root).find? (fun e => e.tag = "Document") with
    | none => (emptyForest, 1)
    | some document => (nestedProcess document, 0)

/-- `parse_kml(kml_path, parse_mode)`: the `"nested"` mode selects the
nested parser; any other mode string selects the standard parser. -/
def parse_kml (g : Geom) (doc : Option Xml) (parse_mode : String) : Forest × Nat :=
  if parse_mode = "nested" then parse_kml_nested doc else parse_kml_standard g doc

/-! ## Classification orchestrator (`organize_photos`, per-photo decision) -/

/-- The placement decision for one photo: a region directory path (one to
three name components, coarsest first), the no-GPS bucket, or the
unmatched-region sentinel bucket. -/
inductive Placement where
  | regionPath (parts : List String)
  | noGps
  | noMatch
deriving DecidableEq

/-- The per-photo decision of `organize_photos`: photos without a
coordinate go to the no-GPS bucket before the resolver is invoked;
otherwise the resolver runs once on `Point(lon, lat)` and the branch
chain `if village and town and district / elif town and district /
elif district / else` picks the directory path or the sentinel bucket.
The match below enumerates exactly the cases of that if/elif chain. -/
def classify_photo (g : Geom) (f : Forest) (lat lon : Option Rat) : Placement :=
  match lat, lon with
  | some la, some lo =>
    match find_region_for_point g (lo, la) f with
    | (some d, some t, some v) => .regionPath [d.name, t.name, v.name]
    | (some d, some t, none) => .regionPath [d.name, t.name]
    | (some d, none, _) => .regionPath [d.name]
    | (none, _, _) => .noMatch
  | _, _ => .noGps

/-! ## Specification predicates -/

/-- `r` is the first region of `l` selected by a tier scan: it matches,
and every region before it in iteration order does not. -/
def IsFirstMatch (g : Geom) (pt : Point) (l : List Region) (r : Region) : Prop :=
  ∃ pre post, l = pre ++ r :: post ∧ regionMatches g pt r = true ∧
    ∀ x ∈ pre, regionMatches g pt x = false

/-- The bucket invariant of the standard parser before linking: each
bucket holds regions of its own level, all still unlinked. -/
def BucketInv (f : Forest) : Prop :=
  (∀ r ∈ f.districts, r.level = 3 ∧ r.parent = none) ∧
  (∀ r ∈ f.towns, r.level = 2 ∧ r.parent = none) ∧
  (∀ r ∈ f.villages, r.level = 1 ∧ r.parent = none)

/-- Total number of regions over the three buckets. -/
def forestSize (f : Forest) : Nat :=
  f.districts.length + f.towns.length + f.villages.length

/-! ## Concrete instances used by witnesses and counterexamples -/

/-- A geometry collaborator whose containment test always succeeds and
where every polygon pair intersects with full overlap. -/
def gAll : Geom where
  containsPt := fun _ _ => some true
  touchesPt := fun _ _ => some false
  intersectsPt := fun _ _ => some false
  intersectsPoly := fun _ _ => true
  areaOf := fun _ => 1
  interArea := fun _ _ => 1

/-- A geometry collaborator whose containment test always raises. -/
def gErr : Geom where
  containsPt := fun _ _ => none
  touchesPt := fun _ _ => some false
  intersectsPt := fun _ _ => some false
  intersectsPoly := fun _ _ => true
  areaOf := fun _ => 1
  interArea := fun _ _ => 1

/-- A geometry collaborator realising an exactly-half overlap: area 2,
intersection area 1. -/
def gHalf : Geom where
  containsPt := fun _ _ => some false
  touchesPt := fun _ _ => some false
  intersectsPt := fun _ _ => some false
  intersectsPoly := fun _ _ => true
  areaOf := fun _ => 2
  interArea := fun _ _ => 1

def triPoly : Polygon := ⟨[(0, 0), (1, 0), (0, 1)]⟩

def ptW : Point := (0, 0)

def dReg : Region := .mk "D" 3 none none []

def tReg : Region := .mk "T" 2 none (some dReg) []

def vReg : Region := .mk "V" 1 (some triPoly) (some tReg) []

/-- A fully linked forest: one village inside one town inside one
district. -/
def fFull : Forest := ⟨[dReg], [tReg], [vReg]⟩

def vOrphan : Region := .mk "VO" 1 (some triPoly) none []

/-- A forest with a single, unlinked village. -/
def fOrphan : Forest := ⟨[], [], [vOrphan]⟩

def rErr : Region := .mk "E" 1 (some triPoly) none []

def frQ : Region := .mk "F2" 2 (some triPoly) none []

def crQ : Region := .mk "C3" 3 (some triPoly) none []

/-- A standard-mode Placemark with a name, a line-style width and a
triangular coordinate ring. -/
def mkPm (nm w coords : String) : Xml :=
  .elem "Placemark" none
    [.elem "name" (some nm) [],
     .elem "Style" none [.elem "LineStyle" none [.elem "width" (some w) []]],
     .elem "coordinates" (some coords) []]

def triCoordsText : String := "0,0 1,0 0,1"

/-- A standard-mode document with two districts and one town, all sharing
the same triangle, so that the town qualifies against both districts. -/
def stdDocC1 : Xml :=
  .elem "kml" none
    [.elem "Document" none
      [mkPm "DistA" "3" triCoordsText,
       mkPm "DistB" "3" triCoordsText,
       mkPm "TownT" "2" triCoordsText]]

def pmW : Xml := mkPm "T" "2" triCoordsText

/-- A Folder with no name element but a fully valid named Placemark with
three coordinate pairs. -/
def folderNameless : Xml :=
  .elem "Folder" none
    [.elem "Placemark" none
      [.elem "name" (some "V1") [],
       .elem "coordinates" (some triCoordsText) []]]

/-! ## Helper lemmas -/

theorem regionMatches_true_iff (g : Geom) (pt : Point) (r : Region) :
    regionMatches g pt r = true ↔
      ∃ poly, r.polygon = some poly ∧ regionTest g poly pt = some true := by
  cases r with
  | mk n lv po pa ch =>
    cases po with
    | none => simp [regionMatches, Region.polygon]
    | some poly =>
      simp only [regionMatches, Region.polygon]
      constructor
      · intro hm
        refine ⟨poly, rfl, ?_⟩
        rcases h : regionTest g poly pt with _ | b
        · rw [h] at hm; simp at hm
        · cases b
          · rw [h] at hm; simp at hm
          · rfl
      · rintro ⟨poly', hpoly, ht⟩
        cases hpoly
        rw [ht]

theorem scan_cons_pos (g : Geom) (pt : Point) (a : Region) (l : List Region)
    (hm : regionMatches g pt a = true) : scanRegions g pt (a :: l) = some a := by
  rcases (regionMatches_true_iff g pt a).mp hm with ⟨poly, hpoly, ht⟩
  cases a with
  | mk n lv po pa ch =>
    cases hpoly
    simp [scanRegions, Region.polygon, ht]

theorem scan_cons_neg (g : Geom) (pt : Point) (a : Region) (l : List Region)
    (hm : regionMatches g pt a = false) :
    scanRegions g pt (a :: l) = scanRegions g pt l := by
  cases a with
  | mk n lv po pa ch =>
    cases po with
    | none => simp [scanRegions, Region.polygon]
    | some poly =>
      simp only [regionMatches, Region.polygon] at hm
      simp only [scanRegions, Region.polygon]
      rcases h : regionTest g poly pt with _ | b
      · rfl
      · cases b
        · rfl
        · rw [h] at hm; simp at hm

theorem bool_not_true {b : Bool} (h : ¬ b = true) : b = false := by
  cases b
  · rfl
  · exact absurd rfl h

theorem scan_eq_some_iff (g : Geom) (pt : Point) (l : List Region) (r : Region) :
    scanRegions g pt l = some r ↔ IsFirstMatch g pt l r := by
  induction l with
  | nil =>
    simp only [scanRegions, IsFirstMatch]
    constructor
    · intro h; cases h
    · rintro ⟨pre, post, h, -, -⟩
      exact absurd h.symm (by simp)
  | cons a l ih =>
    by_cases hm : regionMatches g pt a = true
    · rw [scan_cons_pos g pt a l hm]
      constructor
      · intro h
        cases h
        exact ⟨[], l, rfl, hm, by simp⟩
      · rintro ⟨pre, post, heq, hr, hpre⟩
        cases pre with
        | nil =>
          simp only [List.nil_append, List.cons.injEq] at heq
          rw [heq.1]
        | cons b pre' =>
          simp only [List.cons_append, List.cons.injEq] at heq
          have hb : regionMatches g pt b = false := hpre b (by simp)
          rw [← heq.1, hm] at hb
          cases hb
    · have hm' := bool_not_true hm
      rw [scan_cons_neg g pt a l hm', ih]
      constructor
      · rintro ⟨pre, post, heq, hr, hpre⟩
        refine ⟨a :: pre, post, by rw [heq, List.cons_append], hr, ?_⟩
        intro x hx
        rcases List.mem_cons.mp hx with rfl | hx'
        · exact hm'
        · exact hpre x hx'
      · rintro ⟨pre, post, heq, hr, hpre⟩
        cases pre with
        | nil =>
          simp only [List.nil_append, List.cons.injEq] at heq
          rw [heq.1, hr] at hm'
          cases hm'
        | cons b pre' =>
          simp only [List.cons_append, List.cons.injEq] at heq
          exact ⟨pre', post, heq.2, hr, fun x hx => hpre x (by simp [heq.1, hx])⟩

theorem scan_eq_none_iff (g : Geom) (pt : Point) (l : List Region) :
    scanRegions g pt l = none ↔ ∀ x ∈ l, regionMatches g pt x = false := by
  induction l with
  | nil => simp [scanRegions]
  | cons a l ih =>
    by_cases hm : regionMatches g pt a = true
    · rw [scan_cons_pos g pt a l hm]
      simp only [List.mem_cons]
      constructor
      · intro h; cases h
      · intro h
        have := h a (Or.inl rfl)
        rw [hm] at this
        cases this
    · have hm' := bool_not_true hm
      rw [scan_cons_neg g pt a l hm', ih]
      simp only [List.mem_cons]
      constructor
      · intro h x hx
        rcases hx with rfl | hx'
        · exact hm'
        · exact h x hx'
      · intro h x hx
        exact h x (Or.inr hx)

theorem scan_some_matches (g : Geom) (pt : Point) (l : List Region) (r : Region)
    (h : scanRegions g pt l = some r) : regionMatches g pt r = true := by
  rcases (scan_eq_some_iff g pt l r).mp h with ⟨-, -, -, hr, -⟩
  exact hr

theorem regionMatches_polygon (g : Geom) (pt : Point) (r : Region)
    (h : regionMatches g pt r = true) : r.polygon.isSome = true := by
  rcases (regionMatches_true_iff g pt r).mp h with ⟨poly, hpoly, -⟩
  rw [hpoly]
  rfl

theorem withParent_parent (t : Region) (p : Option Region) : (t.withParent p).parent = p := by
  cases t; rfl

theorem withParent_level (t : Region) (p : Option Region) : (t.withParent p).level = t.level := by
  cases t; rfl

theorem withChildren_parent (t : Region) (c : List Region) :
    (t.withChildren c).parent = t.parent := by
  cases t; rfl

theorem withChildren_level (t : Region) (c : List Region) :
    (t.withChildren c).level = t.level := by
  cases t; rfl

theorem qualifies_withParent (g : Geom) (t : Region) (p : Option Region) (c : Region) :
    qualifies g (t.withParent p) c = qualifies g t c := by
  cases t; rfl

theorem qualifies_noPoly (g : Geom) (t c : Region) (h : t.polygon = none) :
    qualifies g t c = false := by
  cases t with
  | mk n lv po pa ch =>
    simp only [Region.polygon] at h
    subst h
    cases c with
    | mk n2 lv2 po2 pa2 ch2 =>
      cases po2 <;> rfl

theorem findq_append {α : Type} (p : α → Bool) (l₁ l₂ : List α) :
    (l₁ ++ l₂).find? p =
      match l₁.find? p with
      | some a => some a
      | none => l₂.find? p := by
  induction l₁ with
  | nil => simp
  | cons a l ih =>
    by_cases h : p a
    · simp [List.find?_cons_of_pos _ h]
    · rw [List.cons_append, List.find?_cons_of_neg _ h, List.find?_cons_of_neg _ h, ih]

theorem linkFiner_parent (g : Geom) (cs : List Region) (t : Region) :
    (linkFiner g cs t).parent =
      match cs.reverse.find? (fun c => qualifies g t c) with
      | some c => some c
      | none => t.parent := by
  induction cs generalizing t with
  | nil => simp [linkFiner]
  | cons c cs ih =>
    have hstep : linkFiner g (c :: cs) t =
        linkFiner g cs (if qualifies g t c then t.withParent (some c) else t) := rfl
    by_cases hq : qualifies g t c = true
    · rw [hstep, if_pos hq, ih]
      have hpred : (fun x => qualifies g (t.withParent (some c)) x) =
          (fun x => qualifies g t x) := by
        funext x
        exact qualifies_withParent g t (some c) x
      rw [hpred, withParent_parent, List.reverse_cons, findq_append]
      have h1 : List.find? (fun x => qualifies g t x) [c] = some c :=
        List.find?_cons_of_pos _ hq
      rw [h1]
      cases h : List.find? (fun x => qualifies g t x) cs.reverse <;> simp
    · rw [hstep, if_neg hq, ih, List.reverse_cons, findq_append]
      have h1 : List.find? (fun x => qualifies g t x) [c] = none := by
        rw [List.find?_cons_of_neg _ hq]
        rfl
      rw [h1]
      cases h : List.find? (fun x => qualifies g t x) cs.reverse <;> simp

theorem linkFiner_level (g : Geom) (cs : List Region) (t : Region) :
    (linkFiner g cs t).level = t.level := by
  induction cs generalizing t with
  | nil => rfl
  | cons c cs ih =>
    have hstep : linkFiner g (c :: cs) t =
        linkFiner g cs (if qualifies g t c then t.withParent (some c) else t) := rfl
    rw [hstep]
    by_cases hq : qualifies g t c = true
    · rw [if_pos hq, ih, withParent_level]
    · rw [if_neg hq, ih]

theorem linkFiner_parent_cases (g : Geom) (cs : List Region) (t : Region) :
    (linkFiner g cs t).parent = t.parent ∨
      ∃ c ∈ cs, (linkFiner g cs t).parent = some c := by
  rw [linkFiner_parent]
  cases h : cs.reverse.find? (fun c => qualifies g t c) with
  | none => exact Or.inl rfl
  | some c =>
    refine Or.inr ⟨c, ?_, rfl⟩
    exact (List.mem_reverse).mp (List.mem_of_find?_eq_some h)

theorem find_region_eq (g : Geom) (pt : Point) (f : Forest) :
    find_region_for_point g pt f =
      match scanRegions g pt f.villages with
      | some v => (v.parent.bind Region.parent, v.parent, some v)
      | none =>
        match scanRegions g pt f.towns with
        | some t => (t.parent, some t, none)
        | none =>
          match scanRegions g pt f.districts with
          | some d => (some d, none, none)
          | none => (none, none, none) := by
  unfold find_region_for_point
  cases scanRegions g pt f.villages with
  | some v => cases hp : v.parent <;> simp [hp]
  | none => rfl

/-- C3: for every built forest and every coordinate, the resolver scans
the Village tier first and stops at the first region that has a polygon
and whose guarded contains-or-touches-or-intersects test succeeds; the
Town tier is scanned only when no Village matched, the District tier only
when neither a Village nor a Town matched, and all three tiers use the
same `regionMatches` test. -/
theorem claim_c3 (g : Geom) (pt : Point) (f : Forest) (d t v : Option Region)
    (h : find_region_for_point g pt f = (d, t, v)) :
    (∀ rv, v = some rv → IsFirstMatch g pt f.villages rv ∧ t = rv.parent ∧
      d = rv.parent.bind Region.parent) ∧
    (v = none → (∀ r ∈ f.villages, regionMatches g pt r = false) ∧
      ∀ rt, t = some rt → IsFirstMatch g pt f.towns rt ∧ d = rt.parent) ∧
    (v = none → t = none → (∀ r ∈ f.towns, regionMatches g pt r = false) ∧
      ∀ rd, d = some rd → IsFirstMatch g pt f.districts rd) := by
  rw [find_region_eq] at h
  cases hv : scanRegions g pt f.villages with
  | some rv =>
    rw [hv] at h
    obtain ⟨hd, ht, hv2⟩ : rv.parent.bind Region.parent = d ∧ rv.parent = t ∧ some rv = v := by
      have := h
      simp only [Prod.mk.injEq] at this
      exact this
    refine ⟨?_, ?_, ?_⟩
    · intro rv' hrv'
      rw [← hv2] at hrv'
      cases hrv'
      exact ⟨(scan_eq_some_iff g pt f.villages rv).mp hv, ht.symm, hd.symm⟩
    · intro hvn
      rw [← hv2] at hvn
      cases hvn
    · intro hvn
      rw [← hv2] at hvn
      cases hvn
  | none =>
    rw [hv] at h
    have hvill : ∀ r ∈ f.villages, regionMatches g pt r = false :=
      (scan_eq_none_iff g pt f.villages).mp hv
    cases ht : scanRegions g pt f.towns with
    | some rt =>
      rw [ht] at h
      obtain ⟨hd, ht2, hv2⟩ : rt.parent = d ∧ some rt = t ∧ none = v := by
        have := h
        simp only [Prod.mk.injEq] at this
        exact this
      refine ⟨?_, ?_, ?_⟩
      · intro rv' hrv'
        rw [← hv2] at hrv'
        cases hrv'
      · intro _
        refine ⟨hvill, ?_⟩
        intro rt' hrt'
        rw [← ht2] at hrt'
        cases hrt'
        exact ⟨(scan_eq_some_iff g pt f.towns rt).mp ht, hd.symm⟩
      · intro _ htn
        rw [← ht2] at htn
        cases htn
    | none =>
      rw [ht] at h
      have htown : ∀ r ∈ f.towns, regionMatches g pt r = false :=
        (scan_eq_none_iff g pt f.towns).mp ht
      cases hdd : scanRegions g pt f.districts with
      | some rd =>
        rw [hdd] at h
        obtain ⟨hd, ht2, hv2⟩ : some rd = d ∧ none = t ∧ none = v := by
          have := h
          simp only [Prod.mk.injEq] at this
          exact this
        refine ⟨?_, ?_, ?_⟩
        · intro rv' hrv'
          rw [← hv2] at hrv'
          cases hrv'
        · intro _
          refine ⟨hvill, ?_⟩
          intro rt' hrt'
          rw [← ht2] at hrt'
          cases hrt'
        · intro _ _
          refine ⟨htown, ?_⟩
          intro rd' hrd'
          rw [← hd] at hrd'
          cases hrd'
          exact (scan_eq_some_iff g pt f.districts rd).mp hdd
      | none =>
        rw [hdd] at h
        obtain ⟨hd, ht2, hv2⟩ : (none : Option Region) = d ∧ (none : Option Region) = t ∧
            (none : Option Region) = v := by
          have := h
          simp only [Prod.mk.injEq] at this
          exact this
        refine ⟨?_, ?_, ?_⟩
        · intro rv' hrv'
          rw [← hv2] at hrv'
          cases hrv'
        · intro _
          refine ⟨hvill, ?_⟩
          intro rt' hrt'
          rw [← ht2] at hrt'
          cases hrt'
        · intro _ _
          refine ⟨htown, ?_⟩
          intro rd' hrd'
          rw [← hd] at hrd'
          cases hrd'

/-- C7: for every coordinate, the resolver never selects a region without
a boundary polygon as the geometric match of a tier scan: the region
returned for the tier that matched always carries a polygon (ancestors
reached through parent links are unconstrained). -/
theorem claim_c7 (g : Geom) (pt : Point) (f : Forest) (d t v : Option Region)
    (h : find_region_for_point g pt f = (d, t, v)) :
    (∀ rv, v = some rv → rv.polygon.isSome = true) ∧
    (v = none → ∀ rt, t = some rt → rt.polygon.isSome = true) ∧
    (v = none → t = none → ∀ rd, d = some rd → rd.polygon.isSome = true) := by
  rw [find_region_eq] at h
  cases hv : scanRegions g pt f.villages with
  | some rv =>
    rw [hv] at h
    obtain ⟨hd, ht, hv2⟩ : rv.parent.bind Region.parent = d ∧ rv.parent = t ∧ some rv = v := by
      have := h
      simp only [Prod.mk.injEq] at this
      exact this
    refine ⟨?_, ?_, ?_⟩
    · intro rv' hrv'
      rw [← hv2] at hrv'
      cases hrv'
      exact regionMatches_polygon g pt rv (scan_some_matches g pt f.villages rv hv)
    · intro hvn
      rw [← hv2] at hvn
      cases hvn
    · intro hvn
      rw [← hv2] at hvn
      cases hvn
  | none =>
    rw [hv] at h
    cases ht : scanRegions g pt f.towns with
    | some rt =>
      rw [ht] at h
      obtain ⟨hd, ht2, hv2⟩ : rt.parent = d ∧ some rt = t ∧ none = v := by
        have := h
        simp only [Prod.mk.injEq] at this
        exact this
      refine ⟨?_, ?_, ?_⟩
      · intro rv' hrv'
        rw [← hv2] at hrv'
        cases hrv'
      · intro _ rt' hrt'
        rw [← ht2] at hrt'
        cases hrt'
        exact regionMatches_polygon g pt rt (scan_some_matches g pt f.towns rt ht)
      · intro _ htn
        rw [← ht2] at htn
        cases htn
    | none =>
      rw [ht] at h
      cases hdd : scanRegions g pt f.districts with
      | some rd =>
        rw [hdd] at h
        obtain ⟨hd, ht2, hv2⟩ : some rd = d ∧ none = t ∧ none = v := by
          have := h
          simp only [Prod.mk.injEq] at this
          exact this
        refine ⟨?_, ?_, ?_⟩
        · intro rv' hrv'
          rw [← hv2] at hrv'
          cases hrv'
        · intro _ rt' hrt'
          rw [← ht2] at hrt'
          cases hrt'
        · intro _ _ rd' hrd'
          rw [← hd] at hrd'
          cases hrd'
          exact regionMatches_polygon g pt rd (scan_some_matches g pt f.districts rd hdd)
      | none =>
        rw [hdd] at h
        obtain ⟨hd, ht2, hv2⟩ : (none : Option Region) = d ∧ (none : Option Region) = t ∧
            (none : Option Region) = v := by
          have := h
          simp only [Prod.mk.injEq] at this
          exact this
        refine ⟨?_, ?_, ?_⟩
        · intro rv' hrv'
          rw [← hv2] at hrv'
          cases hrv'
        · intro _ rt' hrt'
          rw [← ht2] at hrt'
          cases hrt'
        · intro _ _ rd' hrd'
          rw [← hd] at hrd'
          cases hrd'

/-- C9: point resolution is total by construction in this embedding, and
a candidate whose guarded geometric test raises (returns `none`) is
silently skipped: removing such a region from any position of any tier
bucket leaves both the tier scan and the whole resolver unchanged. -/
theorem claim_c9 (g : Geom) (pt : Point) (r : Region) (poly : Polygon)
    (hp : r.polygon = some poly) (he : regionTest g poly pt = none) :
    (∀ pre post, scanRegions g pt (pre ++ r :: post) = scanRegions g pt (pre ++ post)) ∧
    (∀ ds ts pre post,
      find_region_for_point g pt ⟨ds, ts, pre ++ r :: post⟩ =
        find_region_for_point g pt ⟨ds, ts, pre ++ post⟩) ∧
    (∀ ds vs pre post,
      find_region_for_point g pt ⟨ds, pre ++ r :: post, vs⟩ =
        find_region_for_point g pt ⟨ds, pre ++ post, vs⟩) ∧
    (∀ ts vs pre post,
      find_region_for_point g pt ⟨pre ++ r :: post, ts, vs⟩ =
        find_region_for_point g pt ⟨pre ++ post, ts, vs⟩) := by
  have hm : regionMatches g pt r = false := by
    cases hmm : regionMatches g pt r
    · rfl
    · rcases (regionMatches_true_iff g pt r).mp hmm with ⟨poly', hp', ht'⟩
      rw [hp] at hp'
      cases hp'
      rw [he] at ht'
      cases ht'
  have hskip : ∀ pre post,
      scanRegions g pt (pre ++ r :: post) = scanRegions g pt (pre ++ post) := by
    intro pre post
    induction pre with
    | nil =>
      simp only [List.nil_append]
      exact scan_cons_neg g pt r post hm
    | cons a pre ih =>
      by_cases ha : regionMatches g pt a = true
      · rw [List.cons_append, List.cons_append, scan_cons_pos g pt a _ ha,
          scan_cons_pos g pt a _ ha]
      · have ha' := bool_not_true ha
        rw [List.cons_append, List.cons_append, scan_cons_neg g pt a _ ha',
          scan_cons_neg g pt a _ ha', ih]
  refine ⟨hskip, ?_, ?_, ?_⟩
  · intro ds ts pre post
    rw [find_region_eq, find_region_eq]
    show (match scanRegions g pt (pre ++ r :: post) with
      | some v => (v.parent.bind Region.parent, v.parent, some v)
      | none =>
        match scanRegions g pt ts with
        | some t => (t.parent, some t, none)
        | none =>
          match scanRegions g pt ds with
          | some d => (some d, none, none)
          | none => (none, none, none)) = _
    rw [hskip pre post]
  · intro ds vs pre post
    rw [find_region_eq, find_region_eq]
    show (match scanRegions g pt vs with
      | some v => (v.parent.bind Region.parent, v.parent, some v)
      | none =>
        match scanRegions g pt (pre ++ r :: post) with
        | some t => (t.parent, some t, none)
        | none =>
          match scanRegions g pt ds with
          | some d => (some d, none, none)
          | none => (none, none, none)) = _
    rw [hskip pre post]
  · intro ts vs pre post
    rw [find_region_eq, find_region_eq]
    show (match scanRegions g pt vs with
      | some v => (v.parent.bind Region.parent, v.parent, some v)
      | none =>
        match scanRegions g pt ts with
        | some t => (t.parent, some t, none)
        | none =>
          match scanRegions g pt (pre ++ r :: post) with
          | some d => (some d, none, none)
          | none => (none, none, none)) = _
    rw [hskip pre post]

/-- C5: a boundary document that cannot be parsed yields, in either mode,
the empty forest together with exactly one reported failure, and the
resolver on the empty forest returns the empty result for every
coordinate. -/
theorem claim_c5 (g : Geom) (mode : String) :
    parse_kml g none mode = (emptyForest, 1) ∧
    ∀ pt, find_region_for_point g pt emptyForest = (none, none, none) := by
  constructor
  · unfold parse_kml
    by_cases h : mode = "nested"
    · rw [if_pos h]
      rfl
    · rw [if_neg h]
      rfl
  · intro pt
    rfl

/-- C2 (counterexample): with a forest holding a single matching village
whose parent links were never established, the resolver returns a
non-empty result, yet the orchestrator routes the photo to the
no-boundary-match sentinel bucket — refuting the claim that a non-empty
result never yields the sentinel. -/
theorem claim_c2_counterexample :
    classify_photo gAll fOrphan (some 0) (some 0) = Placement.noMatch ∧
    ((find_region_for_point gAll ((0 : Rat), (0 : Rat)) fOrphan).2.2).isSome = true :=
  ⟨rfl, rfl⟩

/-- C2 (amended): the orchestrator maps a resolver result to the sentinel
bucket exactly when the district component is absent; whenever a district
is present the photo gets a region directory path of depth 1 to 3 headed
by the district name.  In particular a matched village whose ancestor
links were never established is routed to the sentinel despite the
non-empty result. -/
theorem claim_c2_amended (g : Geom) (f : Forest) (la lo : Rat)
    (d t v : Option Region)
    (h : find_region_for_point g (lo, la) f = (d, t, v)) :
    (classify_photo g f (some la) (some lo) = Placement.noMatch ↔ d = none) ∧
    (∀ dr, d = some dr → ∃ parts,
      classify_photo g f (some la) (some lo) = Placement.regionPath parts ∧
      parts.head? = some dr.name ∧ 1 ≤ parts.length ∧ parts.length ≤ 3) := by
  have hc : classify_photo g f (some la) (some lo) =
      (match (d, t, v) with
       | (some d, some t, some v) => Placement.regionPath [d.name, t.name, v.name]
       | (some d, some t, none) => Placement.regionPath [d.name, t.name]
       | (some d, none, _) => Placement.regionPath [d.name]
       | (none, _, _) => Placement.noMatch) := by
    simp only [classify_photo, h]
  rw [hc]
  rcases d with _ | dr0
  · rcases t with _ | t0 <;> rcases v with _ | v0 <;>
      exact ⟨by simp, by simp⟩
  · rcases t with _ | t0 <;> rcases v with _ | v0
    · refine ⟨by simp, fun dr hdr => ?_⟩
      cases hdr
      exact ⟨[dr0.name], rfl, rfl, by simp, by simp⟩
    · refine ⟨by simp, fun dr hdr => ?_⟩
      cases hdr
      exact ⟨[dr0.name], rfl, rfl, by simp, by simp⟩
    · refine ⟨by simp, fun dr hdr => ?_⟩
      cases hdr
      exact ⟨[dr0.name, t0.name], rfl, rfl, by simp, by simp⟩
    · refine ⟨by simp, fun dr hdr => ?_⟩
      cases hdr
      exact ⟨[dr0.name, t0.name, v0.name], rfl, rfl, by simp, by simp⟩

/-- C4: the linker's qualification test, for a pair with both polygons
present and intersecting, holds exactly when the intersection area is at
least half the finer region's own area; an intersection of exactly half
qualifies, one strictly below half does not. -/
theorem claim_c4 (g : Geom) (fr cr : Region) (pf pc : Polygon)
    (hf : fr.polygon = some pf) (hc : cr.polygon = some pc)
    (hi : g.intersectsPoly pf pc = true) :
    (qualifies g fr cr = true ↔ g.areaOf pf * (1 / 2 : Rat) ≤ g.interArea pf pc) ∧
    (g.interArea pf pc = g.areaOf pf * (1 / 2 : Rat) → qualifies g fr cr = true) ∧
    (g.interArea pf pc < g.areaOf pf * (1 / 2 : Rat) → qualifies g fr cr = false) := by
  have hq : qualifies g fr cr =
      (g.intersectsPoly pf pc &&
        decide (g.areaOf pf * (1 / 2 : Rat) ≤ g.interArea pf pc)) := by
    cases fr with
    | mk n1 l1 p1 pa1 ch1 =>
      cases cr with
      | mk n2 l2 p2 pa2 ch2 =>
        simp only [Region.polygon] at hf hc
        subst hf
        subst hc
        rfl
  rw [hq, hi]
  simp only [Bool.true_and]
  refine ⟨by simp, ?_, ?_⟩
  · intro he
    rw [he]
    simp
  · intro hlt
    exact decide_eq_false (not_le.mpr hlt)

section

attribute [local semireducible] Rat.mul Rat.inv Rat.add Rat.sub Rat.ofScientific

/-- C1 (counterexample): a standard-mode document with two districts that
both qualify for the single town.  The linker leaves the town linked to
the second (last) qualifying district, not the first, refuting the
first-candidate-wins claim. -/
theorem claim_c1_counterexample :
    ((parse_kml_standard gAll (some stdDocC1)).1.districts.map Region.name =
      ["DistA", "DistB"]) ∧
    ((parse_kml_standard gAll (some stdDocC1)).1.towns.map
      (fun t => t.parent.map Region.name) = [some "DistB"]) ∧
    (∀ t ∈ (parse_kml_standard gAll (some stdDocC1)).1.towns,
      ∀ d ∈ (parse_kml_standard gAll (some stdDocC1)).1.districts,
        qualifies gAll t d = true) := by
  refine ⟨?_, ?_, ?_⟩ <;> decide

end

/-- C1 (amended): the linker's per-finer-region loop (`linkFiner`, applied
by `linkForest` first to every town against the districts and then to
every village against the linked towns) links a freshly bucketed finer
region to the LAST coarser candidate in iteration order that qualifies —
each qualifying candidate overwrites the link — and leaves it unlinked
when no candidate qualifies, in particular when the finer region's own
polygon is absent. -/
theorem claim_c1_amended (g : Geom) (cs : List Region) (t : Region)
    (h : t.parent = none) :
    (linkFiner g cs t).parent = cs.reverse.find? (fun c => qualifies g t c) ∧
    ((∀ c ∈ cs, qualifies g t c = false) → (linkFiner g cs t).parent = none) ∧
    (t.polygon = none → (linkFiner g cs t).parent = none) := by
  have h1 : (linkFiner g cs t).parent = cs.reverse.find? (fun c => qualifies g t c) := by
    rw [linkFiner_parent]
    cases hf : cs.reverse.find? (fun c => qualifies g t c)
    · exact h
    · rfl
  refine ⟨h1, ?_, ?_⟩
  · intro hall
    rw [h1, List.find?_eq_none]
    intro x hx
    rw [hall x ((List.mem_reverse).mp hx)]
    simp
  · intro hpoly
    rw [h1, List.find?_eq_none]
    intro x hx
    rw [qualifies_noPoly g t x hpoly]
    simp

/-- C6: in the style-width strategy a named Placemark contributes exactly
one region exactly when its width text parses to exactly 1, 2 or 3, the
parsed width is stored as the region's level (3 = district, 2 = town,
1 = village) and selects the bucket the single region is appended to; any
other parsed width, an unparsable width, or a missing width discards the
element entirely. -/
theorem claim_c6 (pm : Xml) (s : String) (hn : nameTextOf pm = some s) :
    ((stdRegionOf pm).isSome = true ↔
      ∃ k, widthVal pm = some k ∧ (k = 1 ∨ k = 2 ∨ k = 3)) ∧
    (∀ k, widthVal pm = some k → (k = 1 ∨ k = 2 ∨ k = 3) →
      stdRegionOf pm = some (Region.mk (strip s) k (stdPolyOf pm) none [])) ∧
    (∀ f, forestSize (stdStep f pm) = forestSize f +
      (if (stdRegionOf pm).isSome then 1 else 0)) ∧
    (∀ f r, stdRegionOf pm = some r →
      (r.level = 3 → stdStep f pm = { f with districts := f.districts ++ [r] }) ∧
      (r.level = 2 → stdStep f pm = { f with towns := f.towns ++ [r] }) ∧
      (r.level = 1 → stdStep f pm = { f with villages := f.villages ++ [r] })) := by
  cases hw : widthVal pm with
  | none =>
    have hs : stdRegionOf pm = none := by
      simp only [stdRegionOf, hn, hw]
    refine ⟨?_, ?_, ?_, ?_⟩
    · simp [hs]
    · intro k hk
      cases hk
    · intro f
      simp [stdStep, hs, forestSize]
    · intro f r hr
      rw [hs] at hr
      cases hr
  | some k =>
    by_cases hk : k = 1 ∨ k = 2 ∨ k = 3
    · have hs : stdRegionOf pm = some (Region.mk (strip s) k (stdPolyOf pm) none []) := by
        simp only [stdRegionOf, hn, hw, if_pos hk]
      refine ⟨?_, ?_, ?_, ?_⟩
      · constructor
        · intro _
          exact ⟨k, rfl, hk⟩
        · intro _
          rw [hs]
          rfl
      · intro k2 hk2 _
        cases hk2
        exact hs
      · intro f
        have hstep : stdStep f pm = addRegion f (Region.mk (strip s) k (stdPolyOf pm) none []) := by
          simp only [stdStep, hs]
        rw [hstep, hs]
        rcases hk with h1 | h2 | h3
        · subst h1
          simp [addRegion, Region.level, forestSize]
          omega
        · subst h2
          simp [addRegion, Region.level, forestSize]
          omega
        · subst h3
          simp [addRegion, Region.level, forestSize]
          omega
      · intro f r hr
        rw [hs] at hr
        cases hr
        have hstep : stdStep f pm = addRegion f (Region.mk (strip s) k (stdPolyOf pm) none []) := by
          simp only [stdStep, hs]
        refine ⟨?_, ?_, ?_⟩ <;> intro hl <;>
          simp only [Region.level] at hl <;> subst hl <;>
          simp [hstep, addRegion, Region.level]
    · have hs : stdRegionOf pm = none := by
        simp only [stdRegionOf, hn, hw, if_neg hk]
      refine ⟨?_, ?_, ?_, ?_⟩
      · simp only [hs, Option.isSome_none]
        constructor
        · intro hfalse
          cases hfalse
        · rintro ⟨k2, hk2, hdisj⟩
          cases hk2
          exact absurd hdisj hk
      · intro k2 hk2 hdisj
        cases hk2
        exact absurd hdisj hk
      · intro f
        simp [stdStep, hs, forestSize]
      · intro f r hr
        rw [hs] at hr
        cases hr

theorem attachChildren_parent (g : Geom) (l : List Region) (c : Region) :
    (attachChildren g l c).parent = c.parent := by
  unfold attachChildren
  exact withChildren_parent _ _

theorem attachChildren_level (g : Geom) (l : List Region) (c : Region) :
    (attachChildren g l c).level = c.level := by
  unfold attachChildren
  exact withChildren_level _ _

theorem stdRegionOf_spec (pm : Xml) (r : Region) (h : stdRegionOf pm = some r) :
    r.parent = none ∧ (r.level = 1 ∨ r.level = 2 ∨ r.level = 3) := by
  cases hn : nameTextOf pm with
  | none => simp [stdRegionOf, hn] at h
  | some ntext =>
    cases hw : widthVal pm with
    | none => simp [stdRegionOf, hn, hw] at h
    | some lvl =>
      by_cases hk : lvl = 1 ∨ lvl = 2 ∨ lvl = 3
      · have h2 : stdRegionOf pm = some (Region.mk (strip ntext) lvl (stdPolyOf pm) none []) := by
          simp only [stdRegionOf, hn, hw, if_pos hk]
        rw [h2] at h
        cases h
        exact ⟨rfl, hk⟩
      · simp [stdRegionOf, hn, hw, if_neg hk] at h

theorem stdStep_inv (f : Forest) (pm : Xml) (h : BucketInv f) : BucketInv (stdStep f pm) := by
  unfold stdStep
  cases hr : stdRegionOf pm with
  | none => exact h
  | some r =>
    obtain ⟨hp, hl⟩ := stdRegionOf_spec pm r hr
    obtain ⟨hd, ht, hv⟩ := h
    show BucketInv (addRegion f r)
    rcases hl with h1 | h2 | h3
    · have ha : addRegion f r = { f with villages := f.villages ++ [r] } := by
        unfold addRegion
        rw [h1]
        rfl
      rw [ha]
      refine ⟨hd, ht, ?_⟩
      intro x hx
      rcases List.mem_append.mp hx with hx' | hx'
      · exact hv x hx'
      · rw [List.mem_singleton.mp hx']
        exact ⟨h1, hp⟩
    · have ha : addRegion f r = { f with towns := f.towns ++ [r] } := by
        unfold addRegion
        rw [h2]
        rfl
      rw [ha]
      refine ⟨hd, ?_, hv⟩
      intro x hx
      rcases List.mem_append.mp hx with hx' | hx'
      · exact ht x hx'
      · rw [List.mem_singleton.mp hx']
        exact ⟨h2, hp⟩
    · have ha : addRegion f r = { f with districts := f.districts ++ [r] } := by
        unfold addRegion
        rw [h3]
        rfl
      rw [ha]
      refine ⟨?_, ht, hv⟩
      intro x hx
      rcases List.mem_append.mp hx with hx' | hx'
      · exact hd x hx'
      · rw [List.mem_singleton.mp hx']
        exact ⟨h3, hp⟩

theorem foldl_stdStep_inv (pms : List Xml) (f : Forest) (h : BucketInv f) :
    BucketInv (pms.foldl stdStep f) := by
  induction pms generalizing f with
  | nil => exact h
  | cons pm pms ih => exact ih (stdStep f pm) (stdStep_inv f pm h)

theorem emptyForest_inv : BucketInv emptyForest := by
  refine ⟨?_, ?_, ?_⟩ <;> intro r hr <;> cases hr

theorem linkForest_c8 (g : Geom) (f : Forest) (h : BucketInv f) :
    (∀ r ∈ (linkForest g f).villages, ∀ p, r.parent = some p → p.level = 2) ∧
    (∀ r ∈ (linkForest g f).towns, ∀ p, r.parent = some p → p.level = 3) ∧
    (∀ r ∈ (linkForest g f).districts, r.parent = none) := by
  obtain ⟨hd, ht, hv⟩ := h
  refine ⟨?_, ?_, ?_⟩
  · intro r hr p hp
    have hr' : r ∈ f.villages.map (linkFiner g (f.towns.map (linkFiner g f.districts))) := hr
    rw [List.mem_map] at hr'
    obtain ⟨v0, hv0, rfl⟩ := hr'
    rcases linkFiner_parent_cases g (f.towns.map (linkFiner g f.districts)) v0 with hc | ⟨c, hcmem, hc⟩
    · rw [hc, (hv v0 hv0).2] at hp
      cases hp
    · rw [hc] at hp
      cases hp
      rw [List.mem_map] at hcmem
      obtain ⟨t0, ht0, rfl⟩ := hcmem
      rw [linkFiner_level]
      exact (ht t0 ht0).1
  · intro r hr p hp
    have hr' : r ∈ (f.towns.map (linkFiner g f.districts)).map (attachChildren g f.villages) := hr
    rw [List.mem_map] at hr'
    obtain ⟨t1, ht1, rfl⟩ := hr'
    rw [attachChildren_parent] at hp
    rw [List.mem_map] at ht1
    obtain ⟨t0, ht0, rfl⟩ := ht1
    rcases linkFiner_parent_cases g f.districts t0 with hc | ⟨c, hcmem, hc⟩
    · rw [hc, (ht t0 ht0).2] at hp
      cases hp
    · rw [hc] at hp
      cases hp
      exact (hd _ hcmem).1
  · intro r hr
    have hr' : r ∈ f.districts.map (attachChildren g f.towns) := hr
    rw [List.mem_map] at hr'
    obtain ⟨d0, hd0, rfl⟩ := hr'
    rw [attachChildren_parent]
    exact (hd d0 hd0).2

theorem nested_c8 (document : Xml) :
    (∀ r ∈ (nestedProcess document).villages, ∀ p, r.parent = some p → p.level = 2) ∧
    (∀ r ∈ (nestedProcess document).towns, ∀ p, r.parent = some p → p.level = 3) ∧
    (∀ r ∈ (nestedProcess document).districts, r.parent = none) := by
  refine ⟨?_, ?_, ?_⟩
  · intro r hr p hp
    have hr' : r ∈ ((document.children.filter (fun e => e.tag = "Folder")).filterMap
        (processFolder (Region.mk (districtNameOf document) 3 none none []))).flatMap
        Prod.snd := hr
    rw [List.mem_flatMap] at hr'
    obtain ⟨pair, hpair, hrin⟩ := hr'
    rw [List.mem_filterMap] at hpair
    obtain ⟨folder, hfold, hproc⟩ := hpair
    cases htn : townNameOf folder with
    | none => simp [processFolder, htn] at hproc
    | some tn =>
      have hproc2 : pair =
          ((Region.mk tn 2 none (some (Region.mk (districtNameOf document) 3 none none []))
            []).withChildren
              ((folder.children.filter (fun e => e.tag = "Placemark")).filterMap
                (villageOf (Region.mk tn 2 none
                  (some (Region.mk (districtNameOf document) 3 none none [])) []))),
           (folder.children.filter (fun e => e.tag = "Placemark")).filterMap
             (villageOf (Region.mk tn 2 none
               (some (Region.mk (districtNameOf document) 3 none none [])) []))) := by
        have := hproc
        simp only [processFolder, htn, Option.some.injEq] at this
        exact this.symm
      rw [hproc2] at hrin
      rw [List.mem_filterMap] at hrin
      obtain ⟨pm, hpm, hvill⟩ := hrin
      cases hvn : firstNameText pm.children with
      | none => simp [villageOf, hvn] at hvill
      | some vn =>
        have hvill2 : r = Region.mk vn 1 (villagePolyOf pm)
            (some (Region.mk tn 2 none
              (some (Region.mk (districtNameOf document) 3 none none [])) [])) [] := by
          have := hvill
          simp only [villageOf, hvn, Option.some.injEq] at this
          exact this.symm
        rw [hvill2] at hp
        cases hp
        rfl
  · intro r hr p hp
    have hr' : r ∈ ((document.children.filter (fun e => e.tag = "Folder")).filterMap
        (processFolder (Region.mk (districtNameOf document) 3 none none []))).map
        Prod.fst := hr
    rw [List.mem_map] at hr'
    obtain ⟨pair, hpair, rfl⟩ := hr'
    rw [List.mem_filterMap] at hpair
    obtain ⟨folder, hfold, hproc⟩ := hpair
    cases htn : townNameOf folder with
    | none => simp [processFolder, htn] at hproc
    | some tn =>
      have hfst : pair.1 =
          (Region.mk tn 2 none (some (Region.mk (districtNameOf document) 3 none none []))
            []).withChildren
              ((folder.children.filter (fun e => e.tag = "Placemark")).filterMap
                (villageOf (Region.mk tn 2 none
                  (some (Region.mk (districtNameOf document) 3 none none [])) []))) := by
        have := hproc
        simp only [processFolder, htn, Option.some.injEq] at this
        rw [← this]
      rw [hfst, withChildren_parent] at hp
      cases hp
      rfl
  · intro r hr
    have hr' : r ∈ [(Region.mk (districtNameOf document) 3 none none []).withChildren
        (((document.children.filter (fun e => e.tag = "Folder")).filterMap
          (processFolder (Region.mk (districtNameOf document) 3 none none []))).map
          Prod.fst)] := hr
    rw [List.mem_singleton.mp hr', withChildren_parent]
    rfl

/-- C8: after parsing (and linking, for the standard mode) in either
mode, every region with a parent reference has a parent exactly one level
coarser — a linked village's parent is a level-2 (town) region, a linked
town's parent is a level-3 (district) region — and districts are never
linked to a parent.  (A region can never hold more than one parent at a
time: `parent` is a single optional field, in the source as here.) -/
theorem claim_c8 (g : Geom) (doc : Option Xml) (mode : String) :
    (∀ r ∈ ((parse_kml g doc mode).1).villages, ∀ p, r.parent = some p → p.level = 2) ∧
    (∀ r ∈ ((parse_kml g doc mode).1).towns, ∀ p, r.parent = some p → p.level = 3) ∧
    (∀ r ∈ ((parse_kml g doc mode).1).districts, r.parent = none) := by
  have hempty : (∀ r ∈ emptyForest.villages, ∀ p, r.parent = some p → p.level = 2) ∧
      (∀ r ∈ emptyForest.towns, ∀ p, r.parent = some p → p.level = 3) ∧
      (∀ r ∈ emptyForest.districts, r.parent = none) := by
    refine ⟨?_, ?_, ?_⟩ <;> intro r hr <;> cases hr
  unfold parse_kml
  by_cases hm : mode = "nested"
  · rw [if_pos hm]
    cases doc with
    | none => exact hempty
    | some root =>
      cases hfind : (allElems root).find? (fun e => e.tag = "Document") with
      | none =>
        have hres : parse_kml_nested (some root) = (emptyForest, 1) := by
          simp only [parse_kml_nested, hfind]
        rw [hres]
        exact hempty
      | some document =>
        have hres : parse_kml_nested (some root) = (nestedProcess document, 0) := by
          simp only [parse_kml_nested, hfind]
        rw [hres]
        exact nested_c8 document
  · rw [if_neg hm]
    cases doc with
    | none => exact hempty
    | some root =>
      exact linkForest_c8 g (bucketAllOf root)
        (foldl_stdStep_inv _ emptyForest emptyForest_inv)

/-- C10: in the nested-folder strategy a Folder with no non-empty name is
skipped in its entirety: removing such a Folder from the Document's
children (wherever it sits, and whatever named, coordinate-bearing
Placemarks it contains) does not change the parsed forest at all, so none
of its Placemarks ever reach the village bucket. -/
theorem claim_c10 (F : Xml) (hF : F.tag = "Folder") (hname : townNameOf F = none) :
    ∀ (dt : String) (dtx : Option String) (pre post : List Xml),
      nestedProcess (Xml.elem dt dtx (pre ++ F :: post)) =
        nestedProcess (Xml.elem dt dtx (pre ++ post)) := by
  intro dt dtx pre post
  have hch : (Xml.elem dt dtx (pre ++ F :: post)).children = pre ++ F :: post := rfl
  have hch2 : (Xml.elem dt dtx (pre ++ post)).children = pre ++ post := rfl
  have hnametexts : nameTexts (pre ++ F :: post) = nameTexts (pre ++ post) := by
    unfold nameTexts
    rw [List.filterMap_append, List.filterMap_append, List.filterMap_cons]
    have : (if F.tag = "name" ∨ F.tag = "n" then strippedText F else none) = none := by
      rw [hF]
      simp
    rw [this]
  have hdname : districtNameOf (Xml.elem dt dtx (pre ++ F :: post)) =
      districtNameOf (Xml.elem dt dtx (pre ++ post)) := by
    unfold districtNameOf
    rw [hch, hch2, hnametexts]
  have hfolders : (pre ++ F :: post).filter (fun e => e.tag = "Folder") =
      pre.filter (fun e => e.tag = "Folder") ++ F :: post.filter (fun e => e.tag = "Folder") := by
    rw [List.filter_append, List.filter_cons]
    simp [hF]
  have hfolders2 : (pre ++ post).filter (fun e => e.tag = "Folder") =
      pre.filter (fun e => e.tag = "Folder") ++ post.filter (fun e => e.tag = "Folder") := by
    rw [List.filter_append]
  have hproc : ∀ d0, (pre.filter (fun e => e.tag = "Folder") ++
      F :: post.filter (fun e => e.tag = "Folder")).filterMap (processFolder d0) =
      (pre.filter (fun e => e.tag = "Folder") ++
        post.filter (fun e => e.tag = "Folder")).filterMap (processFolder d0) := by
    intro d0
    rw [List.filterMap_append, List.filterMap_append, List.filterMap_cons]
    have : processFolder d0 F = none := by
      unfold processFolder
      rw [hname]
    rw [this]
  simp only [nestedProcess, Xml.children, hdname, hfolders, hfolders2, hproc]

section

attribute [local semireducible] Rat.mul Rat.inv Rat.add Rat.sub Rat.ofScientific

/-- Witness for C1 (amended) at a concrete linker input. -/
theorem claim_c1_amended_witness :
    (linkFiner gAll [crQ] frQ).parent =
      [crQ].reverse.find? (fun c => qualifies gAll frQ c) :=
  (claim_c1_amended gAll [crQ] frQ rfl).1

/-- Witness for C2 (amended) on a fully linked concrete forest. -/
theorem claim_c2_amended_witness :
    ∃ parts, classify_photo gAll fFull (some 0) (some 0) = Placement.regionPath parts ∧
      parts.head? = some dReg.name ∧ 1 ≤ parts.length ∧ parts.length ≤ 3 :=
  (claim_c2_amended gAll fFull 0 0 (some dReg) (some tReg) (some vReg) rfl).2 dReg rfl

/-- Witness for C3: the concrete village is the first match of the
village tier and its ancestors come from the parent chain. -/
theorem claim_c3_witness :
    IsFirstMatch gAll ptW fFull.villages vReg ∧ some tReg = vReg.parent ∧
      some dReg = vReg.parent.bind Region.parent :=
  (claim_c3 gAll ptW fFull (some dReg) (some tReg) (some vReg) rfl).1 vReg rfl

/-- Witness for C4: an exactly-half overlap qualifies. -/
theorem claim_c4_witness : qualifies gHalf frQ crQ = true :=
  (claim_c4 gHalf frQ crQ triPoly triPoly rfl rfl rfl).2.1 (by decide)

/-- Witness for C6: a named width-2 Placemark contributes one level-2
region. -/
theorem claim_c6_witness :
    stdRegionOf pmW = some (Region.mk (strip "T") 2 (stdPolyOf pmW) none []) :=
  (claim_c6 pmW "T" rfl).2.1 2 rfl (Or.inr (Or.inl rfl))

/-- Witness for C7: the geometrically matched village carries a
polygon. -/
theorem claim_c7_witness : vReg.polygon.isSome = true :=
  (claim_c7 gAll ptW fFull (some dReg) (some tReg) (some vReg) rfl).1 vReg rfl

/-- Witness for C9: a region whose containment test raises is skipped by
the tier scan. -/
theorem claim_c9_witness :
    scanRegions gErr ptW ([] ++ rErr :: []) = scanRegions gErr ptW ([] ++ []) :=
  (claim_c9 gErr ptW rErr triPoly rfl rfl).1 [] []

/-- Witness for C10: a nameless Folder holding a named, coordinate-bearing
Placemark contributes nothing to the nested parse. -/
theorem claim_c10_witness :
    nestedProcess (Xml.elem "Document" none ([] ++ folderNameless :: [])) =
      nestedProcess (Xml.elem "Document" none ([] ++ [])) :=
  claim_c10 folderNameless rfl rfl "Document" none [] []

end
